import Mathlib

/-!
Verification of the jsonx-mock embedded document store core.

The HTTP handlers (`handleGetList`, `handleGetOne`, `handlePost`, `handlePut`,
`handleDelete`) are shallow embeddings of `MockServer` in `src/bin/cli.ts`.
The `Collection`, `Validator` and `Auth` components are not part of the
provided sources (only their callers are); they are modelled from the spec,
as marked in their doc comments.
-/

namespace Jsonx

/-- A JSON-like field value as it appears in request bodies and records. -/
inductive Value where
  | null
  | num (n : Int)
  | str (s : String)
  | bool (b : Bool)
deriving DecidableEq

/-- A stored record: bookkeeping fields (`id`, `createdBy`, `createdAt`,
`updatedAt`) plus the data field map (an ordered association list). -/
structure Rec where
  id : Nat
  createdBy : Option String
  createdAt : Nat
  updatedAt : Nat
  fields : List (String × Value)
deriving DecidableEq

/-- Lookup of a field by name in a record's field map (first match). -/
def lookupField (fs : List (String × Value)) (k : String) : Option Value :=
  (fs.find? (fun p => p.1 == k)).map (fun p => p.2)

/-- Set one field: overwrite in place if the key is present, else append. -/
def setField (fs : List (String × Value)) (k : String) (v : Value) :
    List (String × Value) :=
  if fs.any (fun p => p.1 == k) then
    fs.map (fun p => if p.1 == k then (k, v) else p)
  else fs ++ [(k, v)]

/-- Modelled from the spec: the merge performed by `Collection.updateById`
(`updateById(id, partialRecord)` "merges fields from `partialRecord` into the
existing record (fields not present in the input are left unchanged)").
The concrete `Collection` class is not among the provided sources. -/
def mergeFields (old : List (String × Value)) (inp : List (String × Value)) :
    List (String × Value) :=
  inp.foldl (fun acc p => setField acc p.1 p.2) old

/-- Modelled from the spec: a `Collection` is an in-memory ordered sequence of
records for one resource together with its next auto-increment counter
("Maintains the next auto-increment counter, monotonically increasing").
The concrete class is not among the provided sources. -/
structure Collection where
  records : List Rec
  counter : Nat
deriving DecidableEq

/-- Modelled from the spec: `find()` materializes the current view in
insertion order. -/
def Collection.find (c : Collection) : List Rec := c.records

/-- Modelled from the spec: `findById(id)` is a direct lookup by primary
key. -/
def Collection.findById (c : Collection) (i : Nat) : Option Rec :=
  c.records.find? (fun r => r.id == i)

/-- Modelled from the spec: `where(field, '=', value)` returns a new filtered
view; this is the equality filter the list handler builds from query
parameters. -/
def Collection.whereEq (c : Collection) (k : String) (v : Value) : Collection :=
  { c with records := c.records.filter (fun r => lookupField r.fields k == some v) }

/-- Modelled from the spec: `insert(partialRecord)` assigns the next
auto-increment id, stamps `createdAt`, appends to the end of the ordered
sequence and returns the stored record. Counters start at zero, so the first
assigned id is 1. -/
def Collection.insert (c : Collection) (body : List (String × Value))
    (creator : Option String) (now : Nat) : Rec × Collection :=
  let r : Rec :=
    { id := c.counter + 1, createdBy := creator, createdAt := now,
      updatedAt := now, fields := body }
  (r, { records := c.records ++ [r], counter := c.counter + 1 })

/-- Modelled from the spec: `deleteById(id)` removes the record if present and
returns whether a record was removed. -/
def Collection.deleteById (c : Collection) (i : Nat) : Bool × Collection :=
  if c.records.any (fun r => r.id == i) then
    (true, { c with records := c.records.filter (fun r => r.id != i) })
  else (false, c)

/-- Modelled from the spec: `updateById(id, partialRecord)` merges the input
into the existing record (`id` and `createdBy` immutable, `updatedAt`
refreshed) and returns the merged record, or a not-found marker. -/
def Collection.updateById (c : Collection) (i : Nat)
    (inp : List (String × Value)) (now : Nat) : Option Rec × Collection :=
  match c.findById i with
  | none => (none, c)
  | some _ =>
    let rs := c.records.map (fun r =>
      if r.id == i then
        { r with fields := mergeFields r.fields inp, updatedAt := now }
      else r)
    (rs.find? (fun r => r.id == i), { c with records := rs })

/-- The store's collections, indexed by resource name. -/
abbrev Db := List (String × Collection)

/-- `db.getModel(resource)` from the store interface. -/
def getModel (d : Db) (resource : String) : Option Collection :=
  (d.find? (fun p => p.1 == resource)).map (fun p => p.2)

/-- Writing back the (in the source: in-place mutated) collection of one
resource. -/
def setModel (d : Db) (resource : String) (c : Collection) : Db :=
  d.map (fun p => if p.1 == resource then (resource, c) else p)

/-! ## Validator, modelled from the spec (src/validator.ts is not among the
provided sources; the `users` schema is from the decorator-declared model). -/

/-- Field types of a Field Schema. -/
inductive FType where
  | number
  | string
  | boolean
  | date
deriving DecidableEq

/-- A Field Schema: type, required flag, inclusive numeric/length bounds,
auto-increment flag. -/
structure FieldSchema where
  name : String
  ftype : FType
  required : Bool := false
  min : Option Int := none
  max : Option Int := none
  autoIncrement : Bool := false

/-- One structured validation error: the field name and a human-readable
message. -/
structure VDetail where
  field : String
  message : String
deriving DecidableEq

/-- Modelled from the spec: the per-field checks of `Validator.validate`.
Required fields absent or null give a missing-field error; present values are
type-checked and checked against the inclusive `min`/`max` bounds; a supplied
auto-increment field is a read-only violation. -/
def fieldMessages (f : FieldSchema) (v : Option Value) : List String :=
  match v with
  | none => if f.required then [f.name ++ " is required"] else []
  | some .null => if f.required then [f.name ++ " is required"] else []
  | some val =>
    if f.autoIncrement then [f.name ++ " is read-only"] else
    match f.ftype, val with
    | .number, .num n =>
      (match f.min with
       | some m => if n < m then [f.name ++ " must be at least " ++ toString m] else []
       | none => []) ++
      (match f.max with
       | some m => if m < n then [f.name ++ " must be at most " ++ toString m] else []
       | none => [])
    | .number, _ => [f.name ++ " must be a number"]
    | .string, .str s =>
      (match f.min with
       | some m =>
         if (s.length : Int) < m then
           [f.name ++ " must be at least " ++ toString m ++ " characters"]
         else []
       | none => []) ++
      (match f.max with
       | some m =>
         if m < (s.length : Int) then
           [f.name ++ " must be at most " ++ toString m ++ " characters"]
         else []
       | none => [])
    | .string, _ => [f.name ++ " must be a string"]
    | .boolean, .bool _ => []
    | .boolean, _ => [f.name ++ " must be a boolean"]
    | .date, _ => []

/-- Modelled from the spec: validation of a candidate record against a Model
Schema returns all violations found (not just the first), one entry per
violated field check, in schema field order. -/
def validateRecord (schema : List FieldSchema) (body : List (String × Value)) :
    List VDetail :=
  schema.foldr
    (fun f acc =>
      ((fieldMessages f (lookupField body f.name)).map
        (fun m => VDetail.mk f.name m)) ++ acc)
    []

/-- The registered validation schemas, indexed by resource name. -/
abbrev Registry := List (String × List FieldSchema)

/-- Resolution of the Model Schema registered for a resource. -/
def getSchema (reg : Registry) (resource : String) : Option (List FieldSchema) :=
  (reg.find? (fun p => p.1 == resource)).map (fun p => p.2)

/-- Modelled from the spec: `Validator.validate(resourceName, body)` resolves
the Model Schema for the resource (an unregistered resource is an
unknown-resource error) and checks the body against it. -/
def validate (reg : Registry) (resource : String)
    (body : List (String × Value)) : List VDetail :=
  match getSchema reg resource with
  | none => [VDetail.mk resource "unknown resource"]
  | some schema => validateRecord schema body

/-- The `users` Model Schema declared by decorators in the example model file:
auto-increment number `id`; required string `name` with length in [2, 50];
number `age` in [0, 150]. -/
def userSchema : List FieldSchema :=
  [{ name := "id", ftype := .number, autoIncrement := true },
   { name := "name", ftype := .string, required := true,
     min := some 2, max := some 50 },
   { name := "age", ftype := .number, min := some 0, max := some 150 }]

/-! ## HTTP handlers, embedded from `MockServer` in src/bin/cli.ts. -/

/-- The outcome of a request, abstracting the HTTP response the handler
produces. -/
inductive Outcome where
  | resourceNotFound
  | notFound
  | validationError (details : List String)
  | forbidden
  | authError
  | okJson (body : Option Rec)
  | created (r : Rec)
  | deleted
  | listOk (data : List Rec) (total currentPage perPage totalPages : Nat)
deriving DecidableEq

/-- Whether an outcome is a terminal rejection (an HTTP error status: 404,
400, 403, 401), as opposed to a success-shaped response (2xx). -/
def Outcome.isRejection : Outcome → Bool
  | .resourceNotFound => true
  | .notFound => true
  | .validationError _ => true
  | .forbidden => true
  | .authError => true
  | _ => false

/-- JavaScript `data.slice(start, stop)` for in-range indices: the elements at
zero-based offsets in `[start, stop)`. -/
def sliceJS (l : List α) (start stop : Nat) : List α :=
  (l.drop start).take (stop - start)

/-- `MockServer.handleGetList` (cli.ts lines 209-245): defaults
`current_page = 1`, `page_size = 10`, chains an equality `where` filter per
query pair, then pages `find()` with `slice((p-1)*s, p*s)` and reports
`total_pages = ceil(total / page_size)`. -/
def handleGetList (d : Option Db) (resource : String)
    (query : List (String × Value)) (currentPage pageSize : Option Nat) :
    Outcome :=
  match d with
  | none => .resourceNotFound
  | some db =>
    match getModel db resource with
    | none => .resourceNotFound
    | some c0 =>
      let p := currentPage.getD 1
      let s := pageSize.getD 10
      let c := query.foldl (fun c q => c.whereEq q.1 q.2) c0
      let data := c.find
      .listOk (sliceJS data ((p - 1) * s) (p * s)) data.length p s
        ((data.length + s - 1) / s)

/-- `MockServer.handleGetOne` (cli.ts lines 252-267):
`db.getModel(resource)?.findById(id)`; any miss is a 404 `Not found`. -/
def handleGetOne (d : Option Db) (resource : String) (i : Nat) : Outcome :=
  match d with
  | none => .resourceNotFound
  | some db =>
    match (getModel db resource).bind (fun c => c.findById i) with
    | none => .notFound
    | some item => .okJson (some item)

/-- `MockServer.handlePost` (cli.ts lines 274-308): validate the body first
(400 with the detail messages on error), then resolve the collection and
insert `{...value, createdBy: req.user?.id}`. -/
def handlePost (reg : Registry) (user : Option String) (d : Option Db)
    (resource : String) (body : List (String × Value)) (now : Nat) :
    Outcome × Option Db :=
  match d with
  | none => (.resourceNotFound, d)
  | some db =>
    let errs := validate reg resource body
    if errs.isEmpty then
      match getModel db resource with
      | none => (.resourceNotFound, d)
      | some c =>
        let res := c.insert body user now
        (.created res.1, some (setModel db resource res.2))
    else (.validationError (errs.map (fun e => e.message)), d)

/-- `MockServer.handlePut` (cli.ts lines 315-341): validate the body exactly
as `handlePost` does, resolve the collection, then respond with whatever
`updateById(id, {...value, updatedAt: Date.now()})` returns — the source has
no ownership check and no not-found branch for the record itself, so `user`
is unused. -/
def handlePut (reg : Registry) (user : Option String) (d : Option Db)
    (resource : String) (i : Nat) (body : List (String × Value)) (now : Nat) :
    Outcome × Option Db :=
  match d with
  | none => (.resourceNotFound, d)
  | some db =>
    let errs := validate reg resource body
    if errs.isEmpty then
      match getModel db resource with
      | none => (.resourceNotFound, d)
      | some c =>
        let res := c.updateById i body now
        (.okJson res.1, some (setModel db resource res.2))
    else (.validationError (errs.map (fun e => e.message)), d)

/-- `MockServer.handleDelete` (cli.ts lines 348-376): resolve the collection,
`findById` (404 on miss), reject with 403 when auth is enabled and
`item.createdBy !== req.user?.id`, then delete the looked-up record. -/
def handleDelete (authEnabled : Bool) (user : Option String) (d : Option Db)
    (resource : String) (i : Nat) : Outcome × Option Db :=
  match d with
  | none => (.resourceNotFound, d)
  | some db =>
    match getModel db resource with
    | none => (.resourceNotFound, d)
    | some c =>
      match c.findById i with
      | none => (.notFound, d)
      | some item =>
        if authEnabled && (item.createdBy != user) then (.forbidden, d)
        else (.deleted, some (setModel db resource (c.deleteById i).2))

/-- Modelled from the spec: the Auth Guard middleware (src/auth.ts is not
among the provided sources) "rejects requests lacking a valid token with an
authentication error when auth is enabled; otherwise passes the resolved
principal identifier downstream". `principal` is the identity carried by a
successfully verified token, `none` when the token is missing or invalid. -/
def withAuth (enabled : Bool) (principal : Option String)
    (handler : Option String → Outcome × Option Db) (d : Option Db) :
    Outcome × Option Db :=
  if enabled then
    match principal with
    | none => (.authError, d)
    | some p => handler (some p)
  else handler none

/-! ## Operation sequences, for the auto-increment invariant. -/

/-- One mutating collection operation. -/
inductive Op where
  | ins (body : List (String × Value)) (creator : Option String) (now : Nat)
  | upd (i : Nat) (inp : List (String × Value)) (now : Nat)
  | del (i : Nat)

/-- The ids handed out by the inserts of an operation sequence, in order,
starting from collection state `c`. -/
def assignedIds (c : Collection) : List Op → List Nat
  | [] => []
  | .ins body creator now :: ops =>
    (c.insert body creator now).1.id ::
      assignedIds (c.insert body creator now).2 ops
  | .upd i inp now :: ops => assignedIds (c.updateById i inp now).2 ops
  | .del i :: ops => assignedIds (c.deleteById i).2 ops

/-- The empty collection a store initializes when no snapshot exists:
no records, counter at zero. -/
def emptyColl : Collection := { records := [], counter := 0 }

/-- The filtered, ordered result the list handler pages over: the collection
after the chained equality filters, materialized by `find()`. -/
def filteredData (c0 : Collection) (query : List (String × Value)) : List Rec :=
  (query.foldl (fun c q => c.whereEq q.1 q.2) c0).find

/-- The data window of a list response (empty for non-list outcomes). -/
def Outcome.listData : Outcome → List Rec
  | .listOk data _ _ _ _ => data
  | _ => []

/-- A PUT request as dispatched by the server: auth middleware first, then
`handlePut`. -/
def putPipeline (enabled : Bool) (principal : Option String) (reg : Registry)
    (d : Option Db) (resource : String) (i : Nat)
    (body : List (String × Value)) (now : Nat) : Outcome × Option Db :=
  withAuth enabled principal
    (fun u => handlePut reg u d resource i body now) d

/-- The two-record collection used as a concrete witness input. -/
def collW : Collection :=
  { records :=
      [{ id := 1, createdBy := some "p", createdAt := 0, updatedAt := 0,
         fields := [("name", Value.str "Ann")] },
       { id := 2, createdBy := none, createdAt := 0, updatedAt := 0,
         fields := [("name", Value.str "Bob")] }],
    counter := 2 }

/-- The first record of `collW`, used as a concrete witness input. -/
def recW1 : Rec :=
  { id := 1, createdBy := some "p", createdAt := 0, updatedAt := 0,
    fields := [("name", Value.str "Ann")] }

/-- The record of `collW` with id 1 after principal `q` has overwritten its
name through the update handler, as produced at timestamp 7. -/
def recW1upd : Rec :=
  { id := 1, createdBy := some "p", createdAt := 0, updatedAt := 7,
    fields := [("name", Value.str "Eve")] }

/-- The one-collection store used as a concrete witness input. -/
def dbW : Db := [("users", collW)]

/-- The validator registry carrying the `users` schema, as a witness input. -/
def regW : Registry := [("users", userSchema)]


/-! ## Snapshot persistence (C9). The service layer is not among the provided
sources; the snapshot is modelled from the spec as a serialized mapping from
resource name to its ordered record sequence and auto-increment counter,
linearized here into a token stream. -/

/-- A primitive token of the serialized snapshot stream. -/
inductive Tok where
  | n (k : Nat)
  | i (k : Int)
  | s (v : String)
  | b (v : Bool)
deriving DecidableEq

/-- Serialization of one field value. -/
def encValue : Value → List Tok
  | .null => [.n 0]
  | .num k => [.n 1, .i k]
  | .str v => [.n 2, .s v]
  | .bool v => [.n 3, .b v]

/-- Deserialization of one field value. -/
def decValue : List Tok → Option (Value × List Tok)
  | .n 0 :: ts => some (.null, ts)
  | .n 1 :: .i k :: ts => some (.num k, ts)
  | .n 2 :: .s v :: ts => some (.str v, ts)
  | .n 3 :: .b v :: ts => some (.bool v, ts)
  | _ => none

/-- Serialization of one named field. -/
def encPair (p : String × Value) : List Tok := .s p.1 :: encValue p.2

/-- Deserialization of one named field. -/
def decPair : List Tok → Option ((String × Value) × List Tok)
  | .s k :: ts => (decValue ts).map (fun q => ((k, q.1), q.2))
  | _ => none

/-- Length-prefixed serialization of a sequence. -/
def encListWith {α : Type} (enc : α → List Tok) (l : List α) : List Tok :=
  .n l.length :: (l.map enc).flatten

/-- Deserialization of a counted sequence of elements. -/
def decListCount {α : Type} (dec : List Tok → Option (α × List Tok)) :
    Nat → List Tok → Option (List α × List Tok)
  | 0, ts => some ([], ts)
  | k + 1, ts =>
    (dec ts).bind fun q =>
      (decListCount dec k q.2).map fun w => (q.1 :: w.1, w.2)

/-- Deserialization of a length-prefixed sequence. -/
def decListWith {α : Type} (dec : List Tok → Option (α × List Tok)) :
    List Tok → Option (List α × List Tok)
  | .n k :: ts => decListCount dec k ts
  | _ => none

/-- Serialization of the optional creator principal. -/
def encOptStr : Option String → List Tok
  | none => [.n 0]
  | some v => [.n 1, .s v]

/-- Deserialization of the optional creator principal. -/
def decOptStr : List Tok → Option (Option String × List Tok)
  | .n 0 :: ts => some (none, ts)
  | .n 1 :: .s v :: ts => some (some v, ts)
  | _ => none

/-- Serialization of a record's field map. -/
def encFields (fs : List (String × Value)) : List Tok := encListWith encPair fs

/-- Deserialization of a record's field map. -/
def decFields : List Tok → Option (List (String × Value) × List Tok) :=
  decListWith decPair

/-- Serialization of one record with its bookkeeping fields. -/
def encRec (r : Rec) : List Tok :=
  .n r.id :: (encOptStr r.createdBy ++
    (.n r.createdAt :: .n r.updatedAt :: encFields r.fields))

/-- Deserialization of one record. -/
def decRec : List Tok → Option (Rec × List Tok)
  | .n j :: ts =>
    (decOptStr ts).bind fun q =>
      match q.2 with
      | .n ca :: .n ua :: ts2 =>
        (decFields ts2).map fun w =>
          ({ id := j, createdBy := q.1, createdAt := ca, updatedAt := ua,
             fields := w.1 }, w.2)
      | _ => none
  | _ => none

/-- Serialization of one collection: its counter and ordered records. -/
def encColl (c : Collection) : List Tok :=
  .n c.counter :: encListWith encRec c.records

/-- Deserialization of one collection. -/
def decColl : List Tok → Option (Collection × List Tok)
  | .n k :: ts =>
    (decListWith decRec ts).map fun w => ({ records := w.1, counter := k }, w.2)
  | _ => none

/-- Serialization of one named resource entry. -/
def encEntry (p : String × Collection) : List Tok := .s p.1 :: encColl p.2

/-- Deserialization of one named resource entry. -/
def decEntry : List Tok → Option ((String × Collection) × List Tok)
  | .s k :: ts => (decColl ts).map fun w => ((k, w.1), w.2)
  | _ => none

/-- Modelled from the spec: `store` writes the persisted snapshot — the full
serialized mapping from resource name to its ordered record sequence and
current auto-increment counter. -/
def store (d : Db) : List Tok := encListWith encEntry d

/-- Modelled from the spec: `load` reads a persisted snapshot back into the
store's collections, failing on a malformed stream. -/
def load (ts : List Tok) : Option Db :=
  match decListWith decEntry ts with
  | some (d, []) => some d
  | _ => none

/-! ## Round-trip of the snapshot serializers, and all claim theorems. -/

/-! ## Theorems -/

theorem findById_eq_none_iff (c : Collection) (i : Nat) :
    c.findById i = none ↔ ∀ r ∈ c.records, r.id ≠ i := by
  simp [Collection.findById, List.find?_eq_none]

/-- C2: `deleteById` removes exactly the record with the supplied id when it
is present — afterwards `findById` of that id reports not-found, every other
record remains (and nothing else is in the result) — and the returned Boolean
reports whether a record was removed; when no such record exists the
collection is unchanged. -/
theorem C2_deleteById_removes_exactly (c : Collection) (i : Nat) :
    ((c.deleteById i).1 = true ↔ ¬ c.findById i = none) ∧
    (c.deleteById i).2.findById i = none ∧
    (∀ r ∈ c.records, r.id ≠ i → r ∈ (c.deleteById i).2.records) ∧
    (∀ r ∈ (c.deleteById i).2.records, r ∈ c.records ∧ r.id ≠ i) ∧
    (c.findById i = none → (c.deleteById i).2 = c) := by
  rcases hany : c.records.any (fun r => r.id == i) with _ | _
  · have hnone : c.findById i = none := by
      rw [findById_eq_none_iff]
      intro r hr
      have := List.any_eq_false.mp hany r hr
      simpa using this
    simp only [Collection.deleteById, hany, Bool.false_eq_true, if_false]
    refine ⟨by simp [hnone], hnone, fun r hr _ => hr, fun r hr => ?_,
      fun _ => by trivial⟩
    exact ⟨hr, (findById_eq_none_iff c i).mp hnone r hr⟩
  · have hsome : ¬ c.findById i = none := by
      rcases List.any_eq_true.mp hany with ⟨r, hr, hri⟩
      rw [findById_eq_none_iff]
      push_neg
      exact ⟨r, hr, by simpa using hri⟩
    simp only [Collection.deleteById, hany, if_true]
    refine ⟨by simp [hsome], ?_, ?_, ?_, fun h => absurd h hsome⟩
    · rw [findById_eq_none_iff]
      intro r hr
      have := (List.mem_filter.mp hr).2
      simpa using this
    · intro r hr hri
      exact List.mem_filter.mpr ⟨hr, by simpa using hri⟩
    · intro r hr
      rcases List.mem_filter.mp hr with ⟨h1, h2⟩
      exact ⟨h1, by simpa using h2⟩

theorem C2_deleteById_removes_exactly_witness :
    (collW.deleteById 1).2.findById 1 = none ∧ (collW.deleteById 1).1 = true :=
  ⟨(C2_deleteById_removes_exactly collW 1).2.1,
   (C2_deleteById_removes_exactly collW 1).1.mpr (by decide)⟩

/-- C7: against the `users` schema, a name shorter than 2 characters is
rejected with exactly the detail `name must be at least 2 characters`; an age
above 150 is rejected with exactly `age must be at most 150`;
`{name: "Al"}` is accepted (length 2 meets the inclusive minimum); and a
record violating both `name` and `age` gets one error entry per violated
field. -/
theorem C7_users_schema_validation :
    (∀ s : String, s.length < 2 →
      (validateRecord userSchema [("name", Value.str s)]).map
          (fun d => d.message) =
        ["name must be at least 2 characters"]) ∧
    (∀ a : Int, 150 < a →
      (validateRecord userSchema
          [("name", Value.str "Ann"), ("age", Value.num a)]).map
          (fun d => d.message) =
        ["age must be at most 150"]) ∧
    validateRecord userSchema [("name", Value.str "Al")] = [] ∧
    validateRecord userSchema [("name", Value.str "A"), ("age", Value.num 200)] =
      [⟨"name", "name must be at least 2 characters"⟩,
       ⟨"age", "age must be at most 150"⟩] := by
  refine ⟨?_, ?_, by decide, by decide⟩
  · intro s hs
    have h1 : (s.length : Int) < 2 := by exact_mod_cast hs
    have h2 : ¬ ((50 : Int) < (s.length : Int)) := by omega
    simp only [validateRecord, userSchema, fieldMessages, lookupField]
    simp [h1, h2]
    decide
  · intro a ha
    have h1 : ¬ (a < (0 : Int)) := by omega
    have h2 : (150 : Int) < a := ha
    have h3 : ¬ (("Ann".length : Int) < 2) := by decide
    have h4 : ¬ ((50 : Int) < ("Ann".length : Int)) := by decide
    simp only [validateRecord, userSchema, fieldMessages, lookupField]
    simp [h1, h2, h3, h4]
    decide

theorem C7_users_schema_validation_witness :
    (validateRecord userSchema [("name", Value.str "A")]).map
        (fun d => d.message) =
      ["name must be at least 2 characters"] ∧
    (validateRecord userSchema
        [("name", Value.str "Ann"), ("age", Value.num 200)]).map
        (fun d => d.message) =
      ["age must be at most 150"] :=
  ⟨C7_users_schema_validation.1 "A" (by decide),
   C7_users_schema_validation.2.1 200 (by decide)⟩

theorem find?_map_setfun_ne {β : Type} (old : List (String × β)) (k0 : String)
    (v : β) (k : String) (h : k ≠ k0) :
    ((old.map fun p => if p.1 == k0 then (k0, v) else p).find?
        (fun p => p.1 == k)) =
      old.find? (fun p => p.1 == k) := by
  induction old with
  | nil => rfl
  | cons hd tl ih =>
    by_cases h0 : hd.1 = k0
    · have e1 : (if hd.1 == k0 then (k0, v) else hd) = (k0, v) := by simp [h0]
      have e2 : List.find? (fun p => p.1 == k)
          ((k0, v) :: (tl.map fun p => if p.1 == k0 then (k0, v) else p)) =
          List.find? (fun p => p.1 == k)
            (tl.map fun p => if p.1 == k0 then (k0, v) else p) :=
        List.find?_cons_of_neg _ (by simpa using fun hc => h hc.symm)
      have e3 : List.find? (fun p => p.1 == k) (hd :: tl) =
          List.find? (fun p => p.1 == k) tl :=
        List.find?_cons_of_neg _
          (by simpa [h0] using fun hc => h hc.symm)
      rw [List.map_cons, e1, e2, e3, ih]
    · have e1 : (if hd.1 == k0 then (k0, v) else hd) = hd := by simp [h0]
      rw [List.map_cons, e1]
      by_cases hk : hd.1 = k
      · have e2 : List.find? (fun p => p.1 == k)
            (hd :: (tl.map fun p => if p.1 == k0 then (k0, v) else p)) =
            some hd :=
          List.find?_cons_of_pos _ (by simpa using hk)
        have e3 : List.find? (fun p => p.1 == k) (hd :: tl) = some hd :=
          List.find?_cons_of_pos _ (by simpa using hk)
        rw [e2, e3]
      · have e2 : List.find? (fun p => p.1 == k)
            (hd :: (tl.map fun p => if p.1 == k0 then (k0, v) else p)) =
            List.find? (fun p => p.1 == k)
              (tl.map fun p => if p.1 == k0 then (k0, v) else p) :=
          List.find?_cons_of_neg _ (by simpa using hk)
        have e3 : List.find? (fun p => p.1 == k) (hd :: tl) =
            List.find? (fun p => p.1 == k) tl :=
          List.find?_cons_of_neg _ (by simpa using hk)
        rw [e2, e3, ih]

theorem lookupField_setField_ne (old : List (String × Value)) (k0 : String)
    (v : Value) (k : String) (h : k ≠ k0) :
    lookupField (setField old k0 v) k = lookupField old k := by
  unfold setField
  by_cases hany : old.any (fun p => p.1 == k0)
  · simp only [hany, if_true]
    unfold lookupField
    rw [find?_map_setfun_ne old k0 v k h]
  · simp only [hany, Bool.false_eq_true, if_false]
    unfold lookupField
    rw [List.find?_append]
    have hkk : ¬ k0 = k := fun hc => h hc.symm
    have hne : List.find? (fun p => p.1 == k) [(k0, v)] = none := by simp [hkk]
    simp [hne]

theorem lookupField_mergeFields_of_none (inp : List (String × Value)) :
    ∀ (old : List (String × Value)) (k : String), lookupField inp k = none →
      lookupField (mergeFields old inp) k = lookupField old k := by
  induction inp with
  | nil => intro old k _; rfl
  | cons p rest ih =>
    intro old k h
    by_cases hpk : p.1 = k
    · exfalso
      simp [lookupField, List.find?_cons, hpk] at h
    · have hrest : lookupField rest k = none := by
        simpa [lookupField, List.find?_cons, hpk] using h
      have hstep : mergeFields old (p :: rest) =
          mergeFields (setField old p.1 p.2) rest := rfl
      rw [hstep, ih (setField old p.1 p.2) k hrest,
        lookupField_setField_ne old p.1 p.2 k (fun hc => hpk hc.symm)]

/-- C5: on an existing record, `updateById` returns a merged record (also
stored in the collection) that keeps the record's `id` and `createdBy`,
leaves every field not supplied in the input unchanged, and advances
`updatedAt`. -/
theorem C5_updateById_frame (c : Collection) (i : Nat)
    (inp : List (String × Value)) (now : Nat) (old : Rec)
    (hold : c.findById i = some old) (hnow : old.updatedAt < now) :
    ∃ r, (c.updateById i inp now).1 = some r ∧
      r ∈ (c.updateById i inp now).2.records ∧
      r.id = old.id ∧ r.createdBy = old.createdBy ∧
      old.updatedAt < r.updatedAt ∧
      ∀ k, lookupField inp k = none →
        lookupField r.fields k = lookupField old.fields k := by
  have hold' : c.records.find? (fun r => r.id == i) = some old := hold
  have hmem : old ∈ c.records := List.mem_of_find?_eq_some hold'
  have hid : (old.id == i) = true :=
    List.find?_some (p := fun r : Rec => r.id == i) hold'
  simp only [Collection.updateById, hold]
  set f : Rec → Rec := fun r =>
    if r.id == i then
      { r with fields := mergeFields r.fields inp, updatedAt := now }
    else r with hf
  have hpred : (fun r : Rec => r.id == i) ∘ f = fun r : Rec => r.id == i := by
    funext r
    by_cases h : r.id = i <;> simp [hf, h]
  have hidp : old.id = i := by simpa using hid
  refine ⟨f old, ?_, ?_, ?_, ?_, ?_, ?_⟩
  · rw [List.find?_map, hpred, hold']
    rfl
  · exact List.mem_map_of_mem f hmem
  · simp [hf, hidp]
  · simp [hf, hidp]
  · simpa [hf, hidp] using hnow
  · intro k hk
    simp only [hf, hidp, if_true, beq_self_eq_true]
    exact lookupField_mergeFields_of_none inp old.fields k hk

theorem C5_updateById_frame_witness :
    ∃ r, (collW.updateById 1 [("age", Value.num 30)] 5).1 = some r ∧
      r ∈ (collW.updateById 1 [("age", Value.num 30)] 5).2.records ∧
      r.id = recW1.id ∧ r.createdBy = recW1.createdBy ∧
      recW1.updatedAt < r.updatedAt ∧
      ∀ k, lookupField [("age", Value.num 30)] k = none →
        lookupField r.fields k = lookupField recW1.fields k :=
  C5_updateById_frame collW 1 [("age", Value.num 30)] 5 recW1
    (by decide) (by decide)

theorem counter_updateById (c : Collection) (i : Nat)
    (inp : List (String × Value)) (now : Nat) :
    (c.updateById i inp now).2.counter = c.counter := by
  unfold Collection.updateById
  cases c.findById i <;> rfl

theorem counter_deleteById (c : Collection) (i : Nat) :
    (c.deleteById i).2.counter = c.counter := by
  unfold Collection.deleteById
  split <;> rfl

theorem assignedIds_gt_and_sorted (ops : List Op) :
    ∀ c : Collection, (∀ j ∈ assignedIds c ops, c.counter < j) ∧
      List.Pairwise (· < ·) (assignedIds c ops) := by
  induction ops with
  | nil => intro c; simp [assignedIds]
  | cons op ops ih =>
    intro c
    cases op with
    | ins body creator now =>
      obtain ⟨h1, h2⟩ := ih (c.insert body creator now).2
      have hc : (c.insert body creator now).2.counter = c.counter + 1 := rfl
      have hid : (c.insert body creator now).1.id = c.counter + 1 := rfl
      constructor
      · intro j hj
        rcases List.mem_cons.mp hj with rfl | hj'
        · simp [hid]
        · have := h1 j hj'
          rw [hc] at this
          omega
      · refine List.Pairwise.cons ?_ h2
        intro j hj
        have := h1 j hj
        rw [hc] at this
        omega
    | upd i inp now =>
      obtain ⟨h1, h2⟩ := ih (c.updateById i inp now).2
      refine ⟨fun j hj => ?_, h2⟩
      have := h1 j hj
      rwa [counter_updateById] at this
    | del i =>
      obtain ⟨h1, h2⟩ := ih (c.deleteById i).2
      refine ⟨fun j hj => ?_, h2⟩
      have := h1 j hj
      rwa [counter_deleteById] at this

/-- C8: along any sequence of operations from any starting state, the ids
assigned by successive inserts are strictly increasing (hence never reused,
deletions included); concretely, from an empty collection, two inserts get
ids 1 and 2 and, after deleting id 1, the next insert gets id 3, not 1. -/
theorem C8_autoincrement_ids (ops : List Op) (c : Collection) :
    List.Pairwise (· < ·) (assignedIds c ops) ∧
    assignedIds emptyColl
      [Op.ins [("name", Value.str "Ann")] none 0,
       Op.ins [("name", Value.str "Ann")] none 1,
       Op.del 1,
       Op.ins [("name", Value.str "Ann")] none 2] = [1, 2, 3] :=
  ⟨(assignedIds_gt_and_sorted ops c).2, by decide⟩

/-! ## Pagination (C4). -/

theorem ceil_div_succ (m s : Nat) (hs : 1 ≤ s) (hm : 1 ≤ m) :
    (m + s - 1) / s = ((m - s) + s - 1) / s + 1 := by
  rcases le_or_lt m s with h | h
  · have h0 : m - s = 0 := by omega
    rw [h0]
    have h1 : (0 + s - 1) / s = 0 := Nat.div_eq_of_lt (by omega)
    have h2 : (m + s - 1) / s = 1 := by
      apply Nat.div_eq_of_lt_le
      · omega
      · omega
    omega
  · have h1 : m + s - 1 = ((m - s) + s - 1) + s := by omega
    rw [h1, Nat.add_div_right _ (by omega)]

theorem flatten_chunks (s : Nat) (hs : 1 ≤ s) :
    ∀ (n : Nat) (l : List Rec), l.length ≤ n →
      ((List.range ((l.length + s - 1) / s)).map
        (fun k => (l.drop (k * s)).take s)).flatten = l := by
  intro n
  induction n with
  | zero =>
    intro l hl
    have h0 : l = [] := List.length_eq_zero.mp (by omega)
    subst h0
    have h1 : (0 + s - 1) / s = 0 := Nat.div_eq_of_lt (by omega)
    simp [h1]
  | succ n ih =>
    intro l hl
    cases l with
    | nil =>
      have h1 : (0 + s - 1) / s = 0 := Nat.div_eq_of_lt (by omega)
      simp [h1]
    | cons a t =>
      have hm : 1 ≤ (a :: t).length := by simp
      rw [ceil_div_succ _ s hs hm]
      have hdl : ((a :: t).drop s).length = (a :: t).length - s := by
        simp [List.length_drop]
      rw [List.range_succ_eq_map, List.map_cons, List.flatten_cons,
        Nat.zero_mul, List.drop_zero, List.map_map]
      have hfun :
          ((fun k => ((a :: t).drop (k * s)).take s) ∘ Nat.succ) =
            (fun k => (((a :: t).drop s).drop (k * s)).take s) := by
        funext k
        simp only [Function.comp_apply, List.drop_drop]
        have : k * s + s = Nat.succ k * s := by
          rw [Nat.succ_mul]
        rw [Nat.add_comm s (k * s), this]
      rw [hfun]
      have hlen : ((a :: t).drop s).length ≤ n := by
        rw [hdl]
        have := hl
        omega
      have := ih ((a :: t).drop s) hlen
      rw [hdl] at this
      rw [this, List.take_append_drop]

/-- C4: for a resolvable resource and `page ≥ 1`, `pageSize ≥ 1`, the list
handler returns exactly the records at zero-based offsets
`[(page-1)*pageSize, page*pageSize)` of the filtered ordered result,
`total = length` and `totalPages = ceil(total / pageSize)`; omitted
parameters default to `page = 1`, `pageSize = 10`; an out-of-range page
yields an empty window (not an error); and the pages returned by the handler
for `page = 1, 2, ...` concatenate, in order, to the full filtered sequence. -/
theorem C4_pagination (d : Db) (resource : String)
    (query : List (String × Value)) (c0 : Collection)
    (hres : getModel d resource = some c0) (p s : Nat)
    (hp : 1 ≤ p) (hs : 1 ≤ s) :
    (handleGetList (some d) resource query (some p) (some s) =
      .listOk (((filteredData c0 query).drop ((p - 1) * s)).take s)
        (filteredData c0 query).length p s
        (((filteredData c0 query).length + s - 1) / s)) ∧
    (handleGetList (some d) resource query none none =
      handleGetList (some d) resource query (some 1) (some 10)) ∧
    ((filteredData c0 query).length ≤ (p - 1) * s →
      handleGetList (some d) resource query (some p) (some s) =
        .listOk [] (filteredData c0 query).length p s
          (((filteredData c0 query).length + s - 1) / s)) ∧
    (((List.range (((filteredData c0 query).length + s - 1) / s)).map
        (fun k => (handleGetList (some d) resource query
          (some (k + 1)) (some s)).listData)).flatten =
      filteredData c0 query) := by
  have harith : ∀ q : Nat, 1 ≤ q → q * s - (q - 1) * s = s := by
    intro q hq
    cases q with
    | zero => omega
    | succ m => rw [Nat.succ_mul, Nat.succ_sub_one]; omega
  have hwin : ∀ q : Nat, 1 ≤ q →
      handleGetList (some d) resource query (some q) (some s) =
        .listOk (((filteredData c0 query).drop ((q - 1) * s)).take s)
          (filteredData c0 query).length q s
          (((filteredData c0 query).length + s - 1) / s) := by
    intro q hq
    simp only [handleGetList, hres, Option.getD_some, sliceJS, harith q hq]
    rfl
  refine ⟨hwin p hp, rfl, ?_, ?_⟩
  · intro hout
    rw [hwin p hp]
    have : (filteredData c0 query).drop ((p - 1) * s) = [] :=
      List.drop_eq_nil_of_le hout
    rw [this, List.take_nil]
  · have hmap : (List.range (((filteredData c0 query).length + s - 1) / s)).map
        (fun k => (handleGetList (some d) resource query
          (some (k + 1)) (some s)).listData) =
        (List.range (((filteredData c0 query).length + s - 1) / s)).map
          (fun k => ((filteredData c0 query).drop (k * s)).take s) := by
      apply List.map_congr_left
      intro k _
      rw [hwin (k + 1) (by omega)]
      simp [Outcome.listData]
    rw [hmap]
    exact flatten_chunks s hs (filteredData c0 query).length
      (filteredData c0 query) le_rfl

theorem C4_pagination_witness :
    handleGetList (some dbW) "users" [] (some 1) (some 10) =
      .listOk (((filteredData collW []).drop ((1 - 1) * 10)).take 10)
        (filteredData collW []).length 1 10
        (((filteredData collW []).length + 10 - 1) / 10) :=
  (C4_pagination dbW "users" [] collW (by decide) 1 10
    (by decide) (by decide)).1

/-! ## Ownership, not-found and no-side-effect behaviour of the handlers
(C1, C3, C6, C10). -/

theorem find?_key_map_set {β : Type} (l : List (String × β)) (r : String)
    (v : β) :
    ((l.map fun p => if p.1 == r then (r, v) else p).find?
        (fun p => p.1 == r)) =
      (l.find? (fun p => p.1 == r)).map (fun _ => (r, v)) := by
  induction l with
  | nil => rfl
  | cons hd tl ih =>
    by_cases h0 : hd.1 = r
    · have e1 : (if hd.1 == r then (r, v) else hd) = (r, v) := by simp [h0]
      have e2 : List.find? (fun p => p.1 == r)
          ((r, v) :: (tl.map fun p => if p.1 == r then (r, v) else p)) =
          some (r, v) :=
        List.find?_cons_of_pos _ (by simp)
      have e3 : List.find? (fun p => p.1 == r) (hd :: tl) = some hd :=
        List.find?_cons_of_pos _ (by simpa using h0)
      rw [List.map_cons, e1, e2, e3]
      rfl
    · have e1 : (if hd.1 == r then (r, v) else hd) = hd := by simp [h0]
      have e2 : List.find? (fun p => p.1 == r)
          (hd :: (tl.map fun p => if p.1 == r then (r, v) else p)) =
          List.find? (fun p => p.1 == r)
            (tl.map fun p => if p.1 == r then (r, v) else p) :=
        List.find?_cons_of_neg _ (by simpa using h0)
      have e3 : List.find? (fun p => p.1 == r) (hd :: tl) =
          List.find? (fun p => p.1 == r) tl :=
        List.find?_cons_of_neg _ (by simpa using h0)
      rw [List.map_cons, e1, e2, e3, ih]

theorem getModel_setModel_self (d : Db) (r : String) (c : Collection)
    (h : getModel d r = some c) (r' : String) :
    getModel (setModel d r c) r' = getModel d r' := by
  by_cases hr : r' = r
  · subst hr
    unfold getModel setModel
    rw [find?_key_map_set]
    unfold getModel at h
    cases hf : d.find? (fun p => p.1 == r') with
    | none => rw [hf] at h; exact absurd h (by simp)
    | some q =>
      rw [hf] at h
      simp at h
      simp [h]
  · unfold getModel setModel
    rw [find?_map_setfun_ne d r c r' hr]

/-- C1 counterexample: with auth enabled, principal `q` updates (via the PUT
pipeline) the record created by principal `p`: the outcome is a success
carrying the merged record, not `Forbidden`, and the stored state changes. -/
theorem C1_counterexample_put_ignores_ownership :
    (putPipeline true (some "q") regW (some dbW) "users" 1
        [("name", Value.str "Eve")] 7).1 = .okJson (some recW1upd) ∧
    (putPipeline true (some "q") regW (some dbW) "users" 1
        [("name", Value.str "Eve")] 7).1 ≠ .forbidden ∧
    (putPipeline true (some "q") regW (some dbW) "users" 1
        [("name", Value.str "Eve")] 7).2 ≠ some dbW := by
  refine ⟨by decide, by decide, by decide⟩

/-- C1 (amended): ownership is enforced only by the delete handler — with
auth enabled, deleting a record created by a different principal is rejected
`Forbidden` with the store unchanged — while the read handlers never produce
`Forbidden` and the update handler performs no ownership check at all (its
result is independent of the requesting principal). -/
theorem C1_ownership_delete_only (pr : Option String) (d : Db)
    (resource : String) (i : Nat) (c : Collection) (item : Rec)
    (hres : getModel d resource = some c) (hfind : c.findById i = some item)
    (hown : item.createdBy ≠ pr) :
    handleDelete true pr (some d) resource i = (.forbidden, some d) ∧
    (∀ dd res j, handleGetOne dd res j ≠ .forbidden) ∧
    (∀ dd res q cp ps, handleGetList dd res q cp ps ≠ .forbidden) ∧
    (∀ u1 u2 reg dd res j body now,
      handlePut reg u1 dd res j body now =
        handlePut reg u2 dd res j body now) := by
  refine ⟨?_, ?_, ?_, fun _ _ _ _ _ _ _ _ => rfl⟩
  · have hbne : (item.createdBy != pr) = true := bne_iff_ne.mpr hown
    simp [handleDelete, hres, hfind, hbne]
  · intro dd res j
    cases dd with
    | none => simp [handleGetOne]
    | some db =>
      simp only [handleGetOne]
      cases (getModel db res).bind (fun c => c.findById j) <;> simp
  · intro dd res q cp ps
    cases dd with
    | none => simp [handleGetList]
    | some db =>
      simp only [handleGetList]
      cases getModel db res <;> simp

theorem C1_ownership_delete_only_witness :
    handleDelete true (some "q") (some dbW) "users" 1 =
      (.forbidden, some dbW) :=
  (C1_ownership_delete_only (some "q") dbW "users" 1 collW recW1
    (by decide) (by decide) (by decide)).1

/-- C3 counterexample: a PUT whose id matches no record does not report
NotFound — the handler answers with a success response carrying the
`updateById` miss (`okJson none`). -/
theorem C3_counterexample_put_miss_not_notfound :
    (handlePut regW (some "q") (some dbW) "users" 99
        [("name", Value.str "Eve")] 7).1 = .okJson none ∧
    (handlePut regW (some "q") (some dbW) "users" 99
        [("name", Value.str "Eve")] 7).1 ≠ .notFound := by
  refine ⟨by decide, by decide⟩

/-- C3 (amended): lookups and deletes of a nonexistent id report NotFound,
and an empty filter match is a valid empty list result, never an error; the
update handler, however, has no NotFound branch — on a missing id it returns
the `updateById` miss in a success response, leaving every collection
unchanged. -/
theorem C3_notfound_behaviour (d : Db) (resource : String) (i : Nat)
    (c : Collection) (hres : getModel d resource = some c)
    (hfind : c.findById i = none) :
    handleGetOne (some d) resource i = .notFound ∧
    (∀ enabled u, handleDelete enabled u (some d) resource i =
      (.notFound, some d)) ∧
    (∀ reg u body now, validate reg resource body = [] →
      (handlePut reg u (some d) resource i body now).1 = .okJson none ∧
      ∀ r', getModel
          (((handlePut reg u (some d) resource i body now).2).getD [])
          r' =
        getModel d r') ∧
    (∀ query cp ps, filteredData c query = [] →
      handleGetList (some d) resource query cp ps =
        .listOk [] 0 (cp.getD 1) (ps.getD 10)
          ((0 + ps.getD 10 - 1) / ps.getD 10)) := by
  refine ⟨?_, ?_, ?_, ?_⟩
  · simp [handleGetOne, hres, hfind]
  · intro enabled u
    simp [handleDelete, hres, hfind]
  · intro reg u body now hv
    have hup : c.updateById i body now = (none, c) := by
      simp only [Collection.updateById, hfind]
    simp only [handlePut, hv, List.isEmpty_nil, if_true, hres, hup]
    exact ⟨by trivial, getModel_setModel_self d resource c hres⟩
  · intro query cp ps hemp
    simp only [handleGetList, hres]
    have : (query.foldl (fun c q => c.whereEq q.1 q.2) c).find = [] := hemp
    rw [this]
    simp [sliceJS]

theorem C3_notfound_behaviour_witness :
    handleGetOne (some dbW) "users" 99 = .notFound ∧
    handleDelete false none (some dbW) "users" 99 = (.notFound, some dbW) :=
  ⟨(C3_notfound_behaviour dbW "users" 99 collW (by decide) (by decide)).1,
   (C3_notfound_behaviour dbW "users" 99 collW (by decide)
      (by decide)).2.1 false none⟩

/-- C6 counterexample: an update whose record lookup fails does not terminate
with a rejection — it answers with a success-shaped response (HTTP 200,
`okJson none`) — even though, as the claim says, no side effect is
performed. -/
theorem C6_counterexample_put_miss_not_rejected :
    collW.findById 99 = none ∧
    (handlePut regW (some "q") (some dbW) "users" 99
        [("name", Value.str "Eve")] 7).1.isRejection = false ∧
    (handlePut regW (some "q") (some dbW) "users" 99
        [("name", Value.str "Eve")] 7).2 = some dbW := by
  refine ⟨by decide, by decide, by decide⟩

/-- C6 (amended): every failing stage of a mutating request leaves the store
unchanged — any rejection outcome of the insert, update or delete handler
comes with an unchanged store, and a failed authentication rejects before the
handler runs — but not every failure is a rejection: an update whose record
lookup fails answers with a success-shaped `okJson none` (still with no
observable state change). -/
theorem C6_failed_stages_no_side_effects (reg : Registry) (u : Option String)
    (dd : Option Db) (resource : String) (body : List (String × Value))
    (i now : Nat) (enabled : Bool) :
    ((handlePost reg u dd resource body now).1.isRejection = true →
      (handlePost reg u dd resource body now).2 = dd) ∧
    ((handlePut reg u dd resource i body now).1.isRejection = true →
      (handlePut reg u dd resource i body now).2 = dd) ∧
    ((handleDelete enabled u dd resource i).1.isRejection = true →
      (handleDelete enabled u dd resource i).2 = dd) ∧
    (∀ h : Option String → Outcome × Option Db,
      withAuth true none h dd = (.authError, dd)) ∧
    (∀ d c, dd = some d → getModel d resource = some c →
      validate reg resource body = [] → c.findById i = none →
      (handlePut reg u dd resource i body now).1 = .okJson none ∧
      (handlePut reg u dd resource i body now).1.isRejection = false ∧
      ∀ r', getModel
          (((handlePut reg u dd resource i body now).2).getD []) r' =
        getModel d r') := by
  refine ⟨?_, ?_, ?_, fun h => rfl, ?_⟩
  · intro h
    cases dd with
    | none => rfl
    | some db =>
      simp only [handlePost] at h ⊢
      by_cases he : (validate reg resource body).isEmpty
      · simp only [he, if_true] at h ⊢
        cases hg : getModel db resource with
        | none => simp [hg]
        | some c =>
          rw [hg] at h
          simp [Outcome.isRejection] at h
      · simp [he]
  · intro h
    cases dd with
    | none => rfl
    | some db =>
      simp only [handlePut] at h ⊢
      by_cases he : (validate reg resource body).isEmpty
      · simp only [he, if_true] at h ⊢
        cases hg : getModel db resource with
        | none => simp [hg]
        | some c =>
          rw [hg] at h
          simp [Outcome.isRejection] at h
      · simp [he]
  · intro h
    cases dd with
    | none => rfl
    | some db =>
      cases hg : getModel db resource with
      | none => simp [handleDelete, hg]
      | some c =>
        cases hf : c.findById i with
        | none => simp [handleDelete, hg, hf]
        | some item =>
          by_cases hb : (enabled && (item.createdBy != u)) = true
          · simp [handleDelete, hg, hf, hb]
          · rw [Bool.not_eq_true] at hb
            simp [handleDelete, hg, hf, hb, Outcome.isRejection] at h
  · intro d c hdd hres hv hfind
    subst hdd
    have hup : c.updateById i body now = (none, c) := by
      simp only [Collection.updateById, hfind]
    simp only [handlePut, hv, List.isEmpty_nil, if_true, hres, hup]
    exact ⟨by trivial, by trivial, getModel_setModel_self d resource c hres⟩

theorem C6_failed_stages_no_side_effects_witness :
    (handlePut regW none (some dbW) "users" 99 [("name", Value.str "Al")]
        7).1 = .okJson none ∧
    (handlePut regW none (some dbW) "users" 99 [("name", Value.str "Al")]
        7).1.isRejection = false :=
  have h := (C6_failed_stages_no_side_effects regW none (some dbW) "users"
    [("name", Value.str "Al")] 99 7 true).2.2.2.2 dbW collW rfl
    (by decide) (by decide) (by decide)
  ⟨h.1, h.2.1⟩

/-- C10: a PUT body is validated against the full Model Schema exactly as an
insert is: for the `users` schema, a body that omits the required `name`
field is rejected with a validation error before `updateById` runs (the store
is returned unchanged), with exactly the same error details as the insert
handler produces for that body. -/
theorem C10_put_validates_like_post (reg : Registry) (u1 u2 : Option String)
    (d : Db) (i : Nat) (body : List (String × Value)) (now now2 : Nat)
    (hreg : getSchema reg "users" = some userSchema)
    (hname : lookupField body "name" = none) :
    ∃ msgs, msgs ≠ [] ∧
      handlePut reg u1 (some d) "users" i body now =
        (.validationError msgs, some d) ∧
      handlePost reg u2 (some d) "users" body now2 =
        (.validationError msgs, some d) := by
  have hval : validate reg "users" body = validateRecord userSchema body := by
    simp [validate, hreg]
  have hmem : VDetail.mk "name" "name is required" ∈
      validateRecord userSchema body := by
    simp [validateRecord, userSchema, fieldMessages, hname]
  have hne : validateRecord userSchema body ≠ [] := by
    intro h
    rw [h] at hmem
    exact absurd hmem (List.not_mem_nil _)
  have hie : (validateRecord userSchema body).isEmpty = false :=
    List.isEmpty_eq_false.mpr hne
  refine ⟨(validateRecord userSchema body).map (fun e => e.message),
    ?_, ?_, ?_⟩
  · simpa using hne
  · simp [handlePut, hval, hie]
  · simp [handlePost, hval, hie]

theorem C10_put_validates_like_post_witness :
    ∃ msgs, msgs ≠ [] ∧
      handlePut regW (some "q") (some dbW) "users" 1
          [("age", Value.num 30)] 7 =
        (.validationError msgs, some dbW) ∧
      handlePost regW (some "p") (some dbW) "users"
          [("age", Value.num 30)] 8 =
        (.validationError msgs, some dbW) :=
  C10_put_validates_like_post regW (some "q") (some "p") dbW 1
    [("age", Value.num 30)] 7 8 rfl rfl

theorem decValue_enc (v : Value) (rest : List Tok) :
    decValue (encValue v ++ rest) = some (v, rest) := by
  cases v <;> rfl

theorem decPair_enc (p : String × Value) (rest : List Tok) :
    decPair (encPair p ++ rest) = some (p, rest) := by
  cases p with
  | mk k v => simp [encPair, decPair, decValue_enc]

theorem decListCount_enc {α : Type}
    (dec : List Tok → Option (α × List Tok)) (enc : α → List Tok)
    (h : ∀ a rest, dec (enc a ++ rest) = some (a, rest)) :
    ∀ (l : List α) (rest : List Tok),
      decListCount dec l.length ((l.map enc).flatten ++ rest) =
        some (l, rest) := by
  intro l
  induction l with
  | nil => intro rest; rfl
  | cons a t ih =>
    intro rest
    simp only [List.map_cons, List.flatten_cons, List.length_cons,
      List.append_assoc, decListCount, h a _, Option.some_bind, ih]
    rfl

theorem decListWith_enc {α : Type}
    (dec : List Tok → Option (α × List Tok)) (enc : α → List Tok)
    (h : ∀ a rest, dec (enc a ++ rest) = some (a, rest))
    (l : List α) (rest : List Tok) :
    decListWith dec (encListWith enc l ++ rest) = some (l, rest) := by
  simp only [encListWith, List.cons_append, decListWith]
  exact decListCount_enc dec enc h l rest

theorem decOptStr_enc (o : Option String) (rest : List Tok) :
    decOptStr (encOptStr o ++ rest) = some (o, rest) := by
  cases o <;> rfl

theorem decRec_enc (r : Rec) (rest : List Tok) :
    decRec (encRec r ++ rest) = some (r, rest) := by
  cases r with
  | mk j cb ca ua fs =>
    simp [encRec, decRec, List.append_assoc, decOptStr_enc, decFields,
      encFields, decListWith_enc decPair encPair decPair_enc]

theorem decColl_enc (c : Collection) (rest : List Tok) :
    decColl (encColl c ++ rest) = some (c, rest) := by
  cases c with
  | mk rs k =>
    simp [encColl, decColl, decListWith_enc decRec encRec decRec_enc]

theorem decEntry_enc (p : String × Collection) (rest : List Tok) :
    decEntry (encEntry p ++ rest) = some (p, rest) := by
  cases p with
  | mk k c => simp [encEntry, decEntry, decColl_enc]

/-- C9: serializing the full store state to the persisted snapshot and
loading it back reproduces an identical state — the same collections, with
the same records in the same order and the same auto-increment counters. -/
theorem C9_snapshot_roundtrip (x : Db) : load (store x) = some x := by
  have h := decListWith_enc decEntry encEntry decEntry_enc x []
  rw [List.append_nil] at h
  unfold load store
  rw [h]

end Jsonx
